import Mathlib

/-!
Verification of the implied-volatility estimator (`implied_volatility.cpp`).

The C++ program has two parts:

* `BSMmodel` — a Monte Carlo pricer: the constructor runs `calculatePremiums`
  (10000 paths, 100 time steps), which advances each path by drawing a
  log-price from a normal distribution and tracks the best (maximum)
  cross-path average call/put payoff over all time steps; `get_price`
  returns the stored call or put premium, after asserting that the option
  type tag is one of the characters c, p.
* `calculateImpliedVolatility` — a bisection loop on volatility over the
  bracket [0.03, 6]: at each iteration it builds a fresh `BSMmodel` at the
  midpoint, compares its premium with the observed one, and moves one
  bracket endpoint to the midpoint, until the width is at most `tol`.

Embedding choices:

* `long double` values are modelled by real numbers.
* A failed `assert` is modelled by `Option.none`.
* Randomness is modelled by explicit oracles: the pricer takes the
  standard-normal variates `Z : ℕ → ℕ → ℝ` (time step, path); the C++
  `std::normal_distribution d{m, s}; d(gen)` draw is `m + s * Z t i`.
  The solver takes the stream `prices : ℕ → ℝ` of premiums reported by
  the freshly constructed (freshly seeded) pricer at each iteration.
* The C++ `while` loop is modelled with explicit fuel; running out of
  fuel yields `none`, so `some` results are exactly the runs that finish
  within the given number of iterations.
-/

/-- `BSMmodel::profit` for type c (`std::max((ld)0, x - Strike)`). -/
noncomputable def callProfit (Strike x : ℝ) : ℝ := max 0 (x - Strike)

/-- `BSMmodel::profit` for type p (`std::max(Strike - x, (ld)0)`). -/
noncomputable def putProfit (Strike x : ℝ) : ℝ := max (Strike - x) 0

/-- `BSMmodel::profit`: asserts the type tag is c or p (`none` models the
assertion abort), then returns the call or put payoff. -/
noncomputable def profit (Strike x : ℝ) (type : Char) : Option ℝ :=
  if type = 'c' ∨ type = 'p' then
    some (if type = 'c' then callProfit Strike x else putProfit Strike x)
  else none

lemma profit_c (Strike x : ℝ) : profit Strike x 'c' = some (callProfit Strike x) := by
  simp [profit]

lemma profit_p (Strike x : ℝ) : profit Strike x 'p' = some (putProfit Strike x) := by
  show (if 'p' = 'c' ∨ 'p' = 'p' then
      some (if 'p' = 'c' then callProfit Strike x else putProfit Strike x)
    else none) = some (putProfit Strike x)
  rw [if_pos (Or.inr rfl), if_neg (by decide : ¬ ('p' = 'c'))]

/-- The `BSMmodel` class: the construction parameters together with the two
premiums computed once by the constructor. -/
structure BSMmodel where
  Time : ℝ
  Spot : ℝ
  Strike : ℝ
  r : ℝ
  Sigma : ℝ
  call : ℝ
  put : ℝ

/-- `BSMmodel::get_price`: asserts the type tag is c or p (`none` models the
assertion abort), then returns the stored call or put premium. -/
def BSMmodel.get_price (m : BSMmodel) (type : Char) : Option ℝ :=
  if type = 'c' ∨ type = 'p' then
    some (if type = 'c' then m.call else m.put)
  else none

/-- C1: the payoff function returns `max (x - K) 0` for a call and
`max (K - x) 0` for a put, deterministically; in particular
`payoff 80 (strike 75) call = 5`, `payoff 70 (strike 75) put = 5` and
`payoff 75 (strike 75) call = 0`. -/
theorem payoff_correct : ∀ (Strike x : ℝ),
    (profit Strike x 'c' = some (max (x - Strike) 0) ∧
      profit Strike x 'p' = some (max (Strike - x) 0)) ∧
    (profit 75 80 'c' = some 5 ∧
      profit 75 70 'p' = some 5 ∧
      profit 75 75 'c' = some 0) := by
  intro Strike x
  refine ⟨⟨?_, ?_⟩, ?_, ?_, ?_⟩
  · rw [profit_c]
    simp only [callProfit]
    rw [max_comm]
  · rw [profit_p]
    simp only [putProfit]
  · rw [profit_c]
    norm_num [callProfit, max_def]
  · rw [profit_p]
    norm_num [putProfit, max_def]
  · rw [profit_c]
    norm_num [callProfit, max_def]

/-- C9: call payoff minus put payoff is `x - K`, at least one of the two is
zero, and both are nonnegative. -/
theorem put_call_payoff_relation : ∀ (Strike x : ℝ),
    profit Strike x 'c' = some (callProfit Strike x) ∧
    profit Strike x 'p' = some (putProfit Strike x) ∧
    callProfit Strike x - putProfit Strike x = x - Strike ∧
    min (callProfit Strike x) (putProfit Strike x) = 0 ∧
    0 ≤ callProfit Strike x ∧ 0 ≤ putProfit Strike x := by
  intro Strike x
  refine ⟨profit_c Strike x, profit_p Strike x, ?_, ?_, le_max_left _ _, le_max_right _ _⟩
  · rcases le_total x Strike with h | h
    · simp only [callProfit, putProfit]
      rw [max_eq_left (by linarith), max_eq_left (by linarith)]
      ring
    · simp only [callProfit, putProfit]
      rw [max_eq_right (by linarith), max_eq_right (by linarith)]
      ring
  · rcases le_total x Strike with h | h
    · simp only [callProfit, putProfit]
      rw [max_eq_left (by linarith : x - Strike ≤ 0)]
      exact min_eq_left (le_max_right _ _)
    · simp only [callProfit, putProfit]
      rw [max_eq_right (by linarith : Strike - x ≤ 0)]
      exact min_eq_right (le_max_left _ _)

/-- C7: the only input validation is the assertion that the type tag is
c or p, in both `profit` and `get_price`: any other tag aborts (`none`),
and under the precondition that the tag is c or p both functions always
succeed (the abort branch is unreachable). -/
theorem option_type_assertion : ∀ (Strike x : ℝ) (m : BSMmodel) (type : Char),
    (type ≠ 'c' ∧ type ≠ 'p' →
      profit Strike x type = none ∧ m.get_price type = none) ∧
    ((type = 'c' ∨ type = 'p') →
      (profit Strike x type).isSome = true ∧ (m.get_price type).isSome = true) := by
  intro Strike x m type
  constructor
  · rintro ⟨h1, h2⟩
    simp [profit, BSMmodel.get_price, h1, h2]
  · rintro (h | h) <;> subst h <;> simp [profit, BSMmodel.get_price]

/-- Witness for C7: the tag x aborts `profit`, the tag c succeeds. -/
theorem option_type_assertion_witness :
    profit (75 : ℝ) 80 'x' = none ∧ (profit (75 : ℝ) 80 'c').isSome = true :=
  ⟨((option_type_assertion 75 80 ⟨0, 0, 0, 0, 0, 0, 0⟩ 'x').1 (by decide)).1,
    ((option_type_assertion 75 80 ⟨0, 0, 0, 0, 0, 0, 0⟩ 'c').2 (Or.inl rfl)).1⟩

/-- Outcome of one iteration body of the bisection loop: either an early
return of a value, or an updated bracket. -/
inductive StepResult where
  | done (v : ℝ)
  | next (lo hi : ℝ)

/-- One iteration body of `calculateImpliedVolatility`, given the premium
`p` the freshly built `BSMmodel` reported at the midpoint: if `p > Premium`
set `high = mid`, else if `p < Premium` set `low = mid`, else return `mid`. -/
noncomputable def bisectStep (Premium p lo hi : ℝ) : StepResult :=
  let mid := (lo + hi) / 2
  if p > Premium then StepResult.next lo mid
  else if p < Premium then StepResult.next mid hi
  else StepResult.done mid

/-- The `while (high_vol - low_vol > tol)` loop of
`calculateImpliedVolatility`, with explicit fuel.  `prices k` is the premium
`model.get_price(type)` reported by the pricer constructed at iteration `k`
(each pricer is freshly seeded, so the stream is an arbitrary oracle).
Running out of fuel yields `none`; otherwise the loop exits with `low` once
the bracket is narrow enough, or with `mid` on an exact premium match. -/
noncomputable def ivLoop (Premium tol : ℝ) (prices : ℕ → ℝ) :
    ℕ → ℕ → ℝ → ℝ → Option ℝ
  | 0, _, lo, hi => if hi - lo > tol then none else some lo
  | fuel + 1, k, lo, hi =>
    if hi - lo > tol then
      match bisectStep Premium (prices k) lo hi with
      | StepResult.done v => some v
      | StepResult.next lo' hi' => ivLoop Premium tol prices fuel (k + 1) lo' hi'
    else some lo

/-- `calculateImpliedVolatility`: bisection on the bracket
`[low_vol = 0.03, high_vol = 6]`.  The market parameters enter only through
the premium stream `prices` of the pricers built inside the loop. -/
noncomputable def calculateImpliedVolatility (_Time _Spot _Strike _r : ℝ)
    (_type : Char) (Premium : ℝ) (prices : ℕ → ℝ) (tol : ℝ) (fuel : ℕ) :
    Option ℝ :=
  ivLoop Premium tol prices fuel 0 (3 / 100) 6

lemma ivLoop_zero (Premium tol : ℝ) (prices : ℕ → ℝ) (k : ℕ) (lo hi : ℝ) :
    ivLoop Premium tol prices 0 k lo hi =
      if hi - lo > tol then none else some lo := rfl

lemma ivLoop_succ (Premium tol : ℝ) (prices : ℕ → ℝ) (fuel k : ℕ) (lo hi : ℝ) :
    ivLoop Premium tol prices (fuel + 1) k lo hi =
      if hi - lo > tol then
        match bisectStep Premium (prices k) lo hi with
        | StepResult.done v => some v
        | StepResult.next lo' hi' => ivLoop Premium tol prices fuel (k + 1) lo' hi'
      else some lo := rfl

lemma bisectStep_gt {Premium p : ℝ} (lo hi : ℝ) (h : Premium < p) :
    bisectStep Premium p lo hi = StepResult.next lo ((lo + hi) / 2) := by
  simp only [bisectStep]
  rw [if_pos h]

lemma bisectStep_lt {Premium p : ℝ} (lo hi : ℝ) (h : p < Premium) :
    bisectStep Premium p lo hi = StepResult.next ((lo + hi) / 2) hi := by
  simp only [bisectStep]
  rw [if_neg (by exact not_lt.mpr h.le), if_pos h]

lemma bisectStep_eq {Premium p : ℝ} (lo hi : ℝ) (h : p = Premium) :
    bisectStep Premium p lo hi = StepResult.done ((lo + hi) / 2) := by
  simp only [bisectStep]
  rw [if_neg (by rw [h]; exact lt_irrefl _), if_neg (by rw [h]; exact lt_irrefl _)]

/-- C2: for every input and every premium stream, the bisection loop
terminates (returns `some`) within `fuel` iterations as soon as
`hi - lo ≤ tol * 2 ^ fuel` — i.e. within `ceil (log2 ((hi - lo) / tol))`
iterations — because each iteration either returns immediately or halves
the bracket.  With the default bracket `[0.03, 6]` and `tol = 1e-5`,
`fuel = 20` suffices (see the witness). -/
theorem solver_terminates : ∀ (Premium tol : ℝ) (prices : ℕ → ℝ)
    (fuel k : ℕ) (lo hi : ℝ), 0 < tol → hi - lo ≤ tol * 2 ^ fuel →
    ∃ v, ivLoop Premium tol prices fuel k lo hi = some v := by
  intro Premium tol prices fuel
  induction fuel with
  | zero =>
      intro k lo hi htol hle
      rw [pow_zero, mul_one] at hle
      exact ⟨lo, by rw [ivLoop_zero, if_neg (not_lt.mpr hle)]⟩
  | succ fuel ih =>
      intro k lo hi htol hle
      by_cases hg : hi - lo > tol
      · have hpow : (2 : ℝ) ^ (fuel + 1) = 2 ^ fuel * 2 := pow_succ 2 fuel
        rcases lt_trichotomy (prices k) Premium with hlt | heq | hgt
        · obtain ⟨v, hv⟩ := ih (k + 1) ((lo + hi) / 2) hi htol
            (by rw [hpow] at hle; linarith)
          exact ⟨v, by rw [ivLoop_succ, if_pos hg, bisectStep_lt _ _ hlt]; exact hv⟩
        · exact ⟨(lo + hi) / 2, by
            rw [ivLoop_succ, if_pos hg, bisectStep_eq _ _ heq]⟩
        · obtain ⟨v, hv⟩ := ih (k + 1) lo ((lo + hi) / 2) htol
            (by rw [hpow] at hle; linarith)
          exact ⟨v, by rw [ivLoop_succ, if_pos hg, bisectStep_gt _ _ hgt]; exact hv⟩
      · exact ⟨lo, by rw [ivLoop_succ, if_neg hg]⟩

/-- Witness for C2: with the default bracket `[0.03, 6]` and tolerance
`1e-5`, 20 iterations always suffice (`6 - 0.03 ≤ 1e-5 * 2 ^ 20`). -/
theorem solver_terminates_witness :
    ∃ v, ivLoop (1298 / 1000) (1 / 100000) (fun _ => 0) 20 0 (3 / 100) 6 = some v :=
  solver_terminates (1298 / 1000) (1 / 100000) (fun _ => 0) 20 0 (3 / 100) 6
    (by norm_num) (by norm_num)

/-- C3: given `lo ≤ hi`, the midpoint satisfies `lo ≤ mid ≤ hi`, and
whenever the iteration body updates the bracket, the new bracket satisfies
`lo' ≤ hi'`, its width is exactly half the old width, and hence the width
is non-increasing. -/
theorem bracket_invariant : ∀ (Premium p lo hi : ℝ), lo ≤ hi →
    (lo ≤ (lo + hi) / 2 ∧ (lo + hi) / 2 ≤ hi) ∧
    (∀ lo' hi', bisectStep Premium p lo hi = StepResult.next lo' hi' →
      lo' ≤ hi' ∧ hi' - lo' = (hi - lo) / 2 ∧ hi' - lo' ≤ hi - lo) := by
  intro Premium p lo hi hle
  refine ⟨⟨by linarith, by linarith⟩, ?_⟩
  intro lo' hi' hstep
  simp only [bisectStep] at hstep
  split_ifs at hstep with h1 h2
  · rw [StepResult.next.injEq] at hstep
    obtain ⟨h3, h4⟩ := hstep
    subst h3; subst h4
    refine ⟨by linarith, by ring, by linarith⟩
  · rw [StepResult.next.injEq] at hstep
    obtain ⟨h3, h4⟩ := hstep
    subst h3; subst h4
    refine ⟨by linarith, by ring, by linarith⟩

/-- Witness for C3: the bracket `[0, 1]` with a premium comparison that
sends the search left. -/
theorem bracket_invariant_witness :
    (((0 : ℝ) ≤ (0 + 1) / 2 ∧ ((0 : ℝ) + 1) / 2 ≤ 1) ∧
      ((0 : ℝ) ≤ (0 + 1) / 2 ∧ ((0 : ℝ) + 1) / 2 - 0 = (1 - 0) / 2 ∧
        ((0 : ℝ) + 1) / 2 - 0 ≤ 1 - 0)) :=
  ⟨(bracket_invariant 1 2 0 1 (by norm_num)).1,
    (bracket_invariant 1 2 0 1 (by norm_num)).2 0 ((0 + 1) / 2)
      (bisectStep_gt 0 1 (by norm_num))⟩

/-- C4: in each iteration, a premium strictly above the observed one moves
`high` to the midpoint, a premium strictly below moves `low` to the
midpoint, and an exactly equal premium makes the loop return the midpoint
immediately. -/
theorem bisection_branches : ∀ (Premium tol p : ℝ) (lo hi : ℝ)
    (prices : ℕ → ℝ) (fuel k : ℕ),
    (p > Premium → bisectStep Premium p lo hi = StepResult.next lo ((lo + hi) / 2)) ∧
    (p < Premium → bisectStep Premium p lo hi = StepResult.next ((lo + hi) / 2) hi) ∧
    (p = Premium → bisectStep Premium p lo hi = StepResult.done ((lo + hi) / 2)) ∧
    (prices k = Premium → hi - lo > tol →
      ivLoop Premium tol prices (fuel + 1) k lo hi = some ((lo + hi) / 2)) := by
  intro Premium tol p lo hi prices fuel k
  refine ⟨bisectStep_gt lo hi, bisectStep_lt lo hi, bisectStep_eq lo hi, ?_⟩
  intro heq hg
  rw [ivLoop_succ, if_pos hg, bisectStep_eq _ _ heq]

/-- Witness for C4: each of the three comparison outcomes on the bracket
`[0, 1]` with observed premium 1, and the immediate return of the loop on
an exact match. -/
theorem bisection_branches_witness :
    bisectStep 1 2 0 1 = StepResult.next 0 ((0 + 1) / 2) ∧
    bisectStep 1 0 0 1 = StepResult.next ((0 + 1) / 2) 1 ∧
    bisectStep 1 1 0 1 = StepResult.done ((0 + 1) / 2) ∧
    ivLoop 1 (1 / 10) (fun _ => 1) (0 + 1) 0 0 1 = some ((0 + 1) / 2) :=
  ⟨(bisection_branches 1 (1 / 10) 2 0 1 (fun _ => 1) 0 0).1 (by norm_num),
    (bisection_branches 1 (1 / 10) 0 0 1 (fun _ => 1) 0 0).2.1 (by norm_num),
    (bisection_branches 1 (1 / 10) 1 0 1 (fun _ => 1) 0 0).2.2.1 rfl,
    (bisection_branches 1 (1 / 10) 1 0 1 (fun _ => 1) 0 0).2.2.2 rfl (by norm_num)⟩

/-- C5: when the loop guard fails — the bracket width `hi - lo` is at most
the tolerance — the loop returns the lower endpoint `low` (not `mid`, not
`high`), whatever the fuel and the premium stream. -/
theorem returns_low_on_exit : ∀ (Premium tol : ℝ) (prices : ℕ → ℝ)
    (fuel k : ℕ) (lo hi : ℝ), hi - lo ≤ tol →
    ivLoop Premium tol prices fuel k lo hi = some lo := by
  intro Premium tol prices fuel k lo hi h
  cases fuel with
  | zero => rw [ivLoop_zero, if_neg (not_lt.mpr h)]
  | succ fuel => rw [ivLoop_succ, if_neg (not_lt.mpr h)]

/-- Witness for C5: with tolerance 10 the default bracket is already
narrow enough, and the loop returns `low = 0.03`. -/
theorem returns_low_on_exit_witness :
    ivLoop 1 10 (fun _ => 0) 3 0 (3 / 100) 6 = some (3 / 100) :=
  returns_low_on_exit 1 10 (fun _ => 0) 3 0 (3 / 100) 6 (by norm_num)

lemma ivLoop_mem (Premium tol : ℝ) (prices : ℕ → ℝ) :
    ∀ (fuel k : ℕ) (lo hi v : ℝ), lo ≤ hi →
    ivLoop Premium tol prices fuel k lo hi = some v → lo ≤ v ∧ v ≤ hi := by
  intro fuel
  induction fuel with
  | zero =>
      intro k lo hi v hle h
      rw [ivLoop_zero] at h
      by_cases hg : hi - lo > tol
      · rw [if_pos hg] at h; exact absurd h (by simp)
      · rw [if_neg hg, Option.some.injEq] at h
        exact ⟨h.le, h ▸ hle⟩
  | succ fuel ih =>
      intro k lo hi v hle h
      rw [ivLoop_succ] at h
      by_cases hg : hi - lo > tol
      · rw [if_pos hg] at h
        rcases lt_trichotomy (prices k) Premium with hlt | heq | hgt
        · rw [bisectStep_lt _ _ hlt] at h
          have := ih (k + 1) ((lo + hi) / 2) hi v (by linarith) h
          exact ⟨by linarith [this.1], this.2⟩
        · rw [bisectStep_eq _ _ heq, Option.some.injEq] at h
          subst h
          exact ⟨by linarith, by linarith⟩
        · rw [bisectStep_gt _ _ hgt] at h
          have := ih (k + 1) lo ((lo + hi) / 2) v (by linarith) h
          exact ⟨this.1, by linarith [this.2]⟩
      · rw [if_neg hg, Option.some.injEq] at h
        exact ⟨h.le, h ▸ hle⟩

/-- C10: whatever the market inputs, the premium stream, the tolerance and
the fuel, any volatility `calculateImpliedVolatility` returns lies in the
hard-coded initial bracket `[0.03, 6]`. -/
theorem result_within_bounds : ∀ (Time Spot Strike r : ℝ) (type : Char)
    (Premium : ℝ) (prices : ℕ → ℝ) (tol : ℝ) (fuel : ℕ) (v : ℝ),
    calculateImpliedVolatility Time Spot Strike r type Premium prices tol fuel = some v →
    3 / 100 ≤ v ∧ v ≤ 6 := by
  intro Time Spot Strike r type Premium prices tol fuel v h
  exact ivLoop_mem Premium tol prices fuel 0 (3 / 100) 6 v (by norm_num) h

/-- Witness for C10: a run that exits immediately (tolerance 10) returns
`low = 0.03`, which lies in the bracket. -/
theorem result_within_bounds_witness : (3 : ℝ) / 100 ≤ 3 / 100 ∧ (3 : ℝ) / 100 ≤ 6 :=
  result_within_bounds 0 0 0 0 'p' 1 (fun _ => 0) 10 0 (3 / 100)
    (by rw [calculateImpliedVolatility, ivLoop_zero, if_neg (by norm_num)])

/-- The mutable state of `BSMmodel::calculatePremiums`: the per-path spot
prices and the running best (maximum) cross-path average payoffs. -/
structure SimState where
  spots : ℕ → ℝ
  best_call_profit : ℝ
  best_put_profit : ℝ

/-- One time step of `BSMmodel::calculatePremiums`: every path draws a
log-price from a normal distribution with mean
`log prev + (r - Sigma^2/2) * dt` and standard deviation `Sigma * sqrt dt`
(the draw is `mean + sd * z i` with `z i` the path's standard-normal
variate), the new spot is `exp` of the draw, and the best call/put average
payoffs are updated with this step's cross-path averages. -/
noncomputable def simStep (Strike r Sigma dt : ℝ) (simulations_num : ℕ)
    (z : ℕ → ℝ) (s : SimState) : SimState :=
  let newSpots : ℕ → ℝ := fun i =>
    Real.exp (Real.log (s.spots i) + (r - Sigma * Sigma / 2) * dt +
      Sigma * Real.sqrt dt * z i)
  let call_average :=
    (∑ i in Finset.range simulations_num, callProfit Strike (newSpots i)) /
      simulations_num
  let put_average :=
    (∑ i in Finset.range simulations_num, putProfit Strike (newSpots i)) /
      simulations_num
  { spots := newSpots,
    best_call_profit := max s.best_call_profit call_average,
    best_put_profit := max s.best_put_profit put_average }

/-- The outer `for (time = 1; time <= time_nums; time++)` loop of
`calculatePremiums`, unrolled to `t` steps: all paths start at `Spot` and
the best payoffs start at 0 (the implicit possibility of expiry at time
0).  `Z t i` is the standard-normal variate of path `i` at step `t + 1`. -/
noncomputable def simLoop (Spot Strike r Sigma dt : ℝ) (simulations_num : ℕ)
    (Z : ℕ → ℕ → ℝ) : ℕ → SimState
  | 0 => ⟨fun _ => Spot, 0, 0⟩
  | t + 1 => simStep Strike r Sigma dt simulations_num (Z t)
      (simLoop Spot Strike r Sigma dt simulations_num Z t)

/-- `BSMmodel::calculatePremiums`: runs the simulation with step size
`dt = Time / time_nums` and returns the pair (best call average, best put
average). -/
noncomputable def calculatePremiums (Time Spot Strike r Sigma : ℝ)
    (Z : ℕ → ℕ → ℝ) (simulations_num time_nums : ℕ) : ℝ × ℝ :=
  let dt := Time / (time_nums : ℝ)
  let s := simLoop Spot Strike r Sigma dt simulations_num Z time_nums
  (s.best_call_profit, s.best_put_profit)

/-- The `BSMmodel` constructor: stores the parameters and immediately runs
`calculatePremiums` with its default arguments (10000 paths, 100 steps). -/
noncomputable def BSMmodel.make (Time Spot Strike r Sigma : ℝ)
    (Z : ℕ → ℕ → ℝ) : BSMmodel :=
  let pr := calculatePremiums Time Spot Strike r Sigma Z 10000 100
  ⟨Time, Spot, Strike, r, Sigma, pr.1, pr.2⟩

/-- C8: at every time step and for every path, the pricer draws the new
log-price from a normal distribution with mean
`log prev + (r - Sigma^2/2) * dt` and standard deviation
`Sigma * sqrt dt`, where `dt = Time / time_nums`, and the new spot price is
`exp` of the draw (`Z t i` is the path's standard-normal variate, so the
draw is `mean + sd * Z t i`). -/
theorem gbm_step_update : ∀ (Time Spot Strike r Sigma : ℝ) (Z : ℕ → ℕ → ℝ)
    (simulations_num time_nums : ℕ) (t i : ℕ),
    (simLoop Spot Strike r Sigma (Time / (time_nums : ℝ)) simulations_num Z
        (t + 1)).spots i =
      Real.exp
        (Real.log ((simLoop Spot Strike r Sigma (Time / (time_nums : ℝ))
            simulations_num Z t).spots i) +
          (r - Sigma * Sigma / 2) * (Time / (time_nums : ℝ)) +
          Sigma * Real.sqrt (Time / (time_nums : ℝ)) * Z t i) := by
  intro Time Spot Strike r Sigma Z simulations_num time_nums t i
  rfl

/-- Closed form of the spot price of path `i` after `t` time steps of the
simulation (proved below to coincide with the `spots` array kept by the
loop). -/
noncomputable def spotAt (Spot r Sigma dt : ℝ) (Z : ℕ → ℕ → ℝ) : ℕ → ℕ → ℝ
  | 0, _ => Spot
  | t + 1, i =>
    Real.exp (Real.log (spotAt Spot r Sigma dt Z t i) +
      (r - Sigma * Sigma / 2) * dt + Sigma * Real.sqrt dt * Z t i)

/-- The cross-path average call payoff at time step `t`. -/
noncomputable def callAverageAt (Spot Strike r Sigma dt : ℝ) (Z : ℕ → ℕ → ℝ)
    (simulations_num t : ℕ) : ℝ :=
  (∑ i in Finset.range simulations_num,
    callProfit Strike (spotAt Spot r Sigma dt Z t i)) / simulations_num

/-- The cross-path average put payoff at time step `t`. -/
noncomputable def putAverageAt (Spot Strike r Sigma dt : ℝ) (Z : ℕ → ℕ → ℝ)
    (simulations_num t : ℕ) : ℝ :=
  (∑ i in Finset.range simulations_num,
    putProfit Strike (spotAt Spot r Sigma dt Z t i)) / simulations_num

lemma simLoop_spots (Spot Strike r Sigma dt : ℝ) (simulations_num : ℕ)
    (Z : ℕ → ℕ → ℝ) : ∀ t i,
    (simLoop Spot Strike r Sigma dt simulations_num Z t).spots i =
      spotAt Spot r Sigma dt Z t i := by
  intro t
  induction t with
  | zero => intro i; rfl
  | succ t ih =>
      intro i
      simp only [simLoop, simStep, spotAt]
      rw [ih i]

lemma simLoop_best_call (Spot Strike r Sigma dt : ℝ) (simulations_num : ℕ)
    (Z : ℕ → ℕ → ℝ) : ∀ M,
    (simLoop Spot Strike r Sigma dt simulations_num Z M).best_call_profit =
      (Finset.range M).fold max 0
        (fun t => callAverageAt Spot Strike r Sigma dt Z simulations_num (t + 1)) := by
  intro M
  induction M with
  | zero => rfl
  | succ M ih =>
      rw [Finset.range_succ, Finset.fold_insert Finset.not_mem_range_self]
      simp only [simLoop, simStep, callAverageAt, spotAt, ih, simLoop_spots]
      exact max_comm _ _

lemma simLoop_best_put (Spot Strike r Sigma dt : ℝ) (simulations_num : ℕ)
    (Z : ℕ → ℕ → ℝ) : ∀ M,
    (simLoop Spot Strike r Sigma dt simulations_num Z M).best_put_profit =
      (Finset.range M).fold max 0
        (fun t => putAverageAt Spot Strike r Sigma dt Z simulations_num (t + 1)) := by
  intro M
  induction M with
  | zero => rfl
  | succ M ih =>
      rw [Finset.range_succ, Finset.fold_insert Finset.not_mem_range_self]
      simp only [simLoop, simStep, putAverageAt, spotAt, ih, simLoop_spots]
      exact max_comm _ _

/-- A concrete draw oracle for the discrepancy part of C6: every path sits
still for 99 steps and drops on the last step. -/
noncomputable def demoZ : ℕ → ℕ → ℝ :=
  fun t _ => if t = 99 then (Real.log 70 - Real.log 80) / 2 else 0

lemma demo_sqrt : Real.sqrt 4 = 2 :=
  (Real.sqrt_eq_iff_mul_self_eq_of_pos (by norm_num)).mpr (by norm_num)

lemma demo_spot : ∀ t, t ≤ 99 → ∀ i, spotAt 80 (1 / 2) 1 4 demoZ t i = 80 := by
  intro t
  induction t with
  | zero => intro _ i; rfl
  | succ t ih =>
      intro ht i
      have htne : t ≠ 99 := by omega
      simp only [spotAt]
      rw [ih (by omega) i]
      simp only [demoZ, if_neg htne]
      norm_num
      exact Real.exp_log (by norm_num)

lemma spotAt_succ (Spot r Sigma dt : ℝ) (Z : ℕ → ℕ → ℝ) (t i : ℕ) :
    spotAt Spot r Sigma dt Z (t + 1) i =
      Real.exp (Real.log (spotAt Spot r Sigma dt Z t i) +
        (r - Sigma * Sigma / 2) * dt + Sigma * Real.sqrt dt * Z t i) := rfl

lemma demo_spot_last : ∀ i, spotAt 80 (1 / 2) 1 4 demoZ 100 i = 70 := by
  intro i
  rw [show (100 : ℕ) = 99 + 1 from rfl, spotAt_succ]
  rw [demo_spot 99 (by norm_num) i]
  simp only [demoZ, eq_self_iff_true, if_true]
  rw [demo_sqrt]
  rw [show Real.log 80 + (1 / 2 - 1 * 1 / 2) * 4 + 1 * 2 * ((Real.log 70 - Real.log 80) / 2) =
    Real.log 70 from by ring]
  exact Real.exp_log (by norm_num)

lemma demo_avg (t : ℕ) (h2 : t ≤ 99) :
    callAverageAt 80 75 (1 / 2) 1 4 demoZ 10000 t = 5 := by
  simp only [callAverageAt]
  have h : ∀ i ∈ Finset.range 10000,
      callProfit 75 (spotAt 80 (1 / 2) 1 4 demoZ t i) = 5 := by
    intro i _
    rw [demo_spot t h2 i]
    simp only [callProfit]
    norm_num [max_def]
  rw [Finset.sum_congr rfl h, Finset.sum_const, Finset.card_range]
  norm_num

lemma demo_avg_last : callAverageAt 80 75 (1 / 2) 1 4 demoZ 10000 100 = 0 := by
  simp only [callAverageAt]
  have h : ∀ i ∈ Finset.range 10000,
      callProfit 75 (spotAt 80 (1 / 2) 1 4 demoZ 100 i) = 0 := by
    intro i _
    rw [demo_spot_last i]
    simp only [callProfit]
    norm_num [max_def]
  rw [Finset.sum_congr rfl h, Finset.sum_const, Finset.card_range]
  norm_num

lemma demo_fold :
    (Finset.range 100).fold max 0
      (fun t => callAverageAt 80 75 (1 / 2) 1 4 demoZ 10000 (t + 1)) = 5 := by
  apply le_antisymm
  · rw [Finset.fold_max_le]
    refine ⟨by norm_num, ?_⟩
    intro t ht
    rcases Nat.lt_or_ge t 99 with h | h
    · rw [demo_avg (t + 1) (by omega)]
    · have ht99 : t = 99 := by
        rw [Finset.mem_range] at ht
        omega
      subst ht99
      rw [show (99 : ℕ) + 1 = 100 from rfl, demo_avg_last]
      norm_num
  · rw [Finset.le_fold_max]
    right
    refine ⟨0, Finset.mem_range.mpr (by norm_num), ?_⟩
    rw [demo_avg (0 + 1) (by norm_num)]

lemma get_price_c (m : BSMmodel) : m.get_price 'c' = some m.call := by
  simp [BSMmodel.get_price]

lemma get_price_p (m : BSMmodel) : m.get_price 'p' = some m.put := by
  show (if 'p' = 'c' ∨ 'p' = 'p' then
      some (if 'p' = 'c' then m.call else m.put)
    else none) = some m.put
  rw [if_pos (Or.inr rfl), if_neg (by decide : ¬ ('p' = 'c'))]

lemma make_get_price_c (Time Spot Strike r Sigma : ℝ) (Z : ℕ → ℕ → ℝ) :
    (BSMmodel.make Time Spot Strike r Sigma Z).get_price 'c' =
      some ((Finset.range 100).fold max 0
        (fun t => callAverageAt Spot Strike r Sigma (Time / 100) Z 10000 (t + 1))) := by
  rw [get_price_c]
  show some ((simLoop Spot Strike r Sigma (Time / ((100 : ℕ) : ℝ)) 10000 Z
    100).best_call_profit) = _
  rw [simLoop_best_call]
  norm_num

lemma make_get_price_p (Time Spot Strike r Sigma : ℝ) (Z : ℕ → ℕ → ℝ) :
    (BSMmodel.make Time Spot Strike r Sigma Z).get_price 'p' =
      some ((Finset.range 100).fold max 0
        (fun t => putAverageAt Spot Strike r Sigma (Time / 100) Z 10000 (t + 1))) := by
  rw [get_price_p]
  show some ((simLoop Spot Strike r Sigma (Time / ((100 : ℕ) : ℝ)) 10000 Z
    100).best_put_profit) = _
  rw [simLoop_best_put]
  norm_num

/-- C6: for every input and every draw sequence, the call (resp. put)
premium stored by the pricer and returned by `get_price` is the maximum,
over the time steps `t = 1..100` together with the implicit step-0 value 0,
of the cross-path average call (resp. put) payoff at step `t`; and (on a
concrete input) it is not the terminal-step average and not the
`exp (-r * Time)`-discounted terminal-step average. -/
theorem premium_is_best_step_average : ∀ (Time Spot Strike r Sigma : ℝ)
    (Z : ℕ → ℕ → ℝ),
    ((BSMmodel.make Time Spot Strike r Sigma Z).get_price 'c' =
        some ((Finset.range 100).fold max 0
          (fun t => callAverageAt Spot Strike r Sigma (Time / 100) Z 10000 (t + 1))) ∧
      (BSMmodel.make Time Spot Strike r Sigma Z).get_price 'p' =
        some ((Finset.range 100).fold max 0
          (fun t => putAverageAt Spot Strike r Sigma (Time / 100) Z 10000 (t + 1)))) ∧
    ((BSMmodel.make 400 80 75 (1 / 2) 1 demoZ).get_price 'c' ≠
        some (callAverageAt 80 75 (1 / 2) 1 (400 / 100) demoZ 10000 100) ∧
      (BSMmodel.make 400 80 75 (1 / 2) 1 demoZ).get_price 'c' ≠
        some (Real.exp (-(1 / 2 * 400)) *
          callAverageAt 80 75 (1 / 2) 1 (400 / 100) demoZ 10000 100)) := by
  intro Time Spot Strike r Sigma Z
  have h4 : ((400 : ℝ) / 100) = 4 := by norm_num
  have h5 : (BSMmodel.make 400 80 75 (1 / 2) 1 demoZ).get_price 'c' = some 5 := by
    rw [make_get_price_c]
    simp only [h4]
    rw [demo_fold]
  have h0 : callAverageAt 80 75 (1 / 2) 1 ((400 : ℝ) / 100) demoZ 10000 100 = 0 := by
    rw [h4]
    exact demo_avg_last
  refine ⟨⟨make_get_price_c Time Spot Strike r Sigma Z,
    make_get_price_p Time Spot Strike r Sigma Z⟩, ?_, ?_⟩
  · rw [h5, h0]
    intro hcon
    rw [Option.some.injEq] at hcon
    norm_num at hcon
  · rw [h5, h0, mul_zero]
    intro hcon
    rw [Option.some.injEq] at hcon
    norm_num at hcon
